import Mathlib

/-!
Verification of the cocoutils geometry core: a shallow embedding of
`src/cocoutils/utils/geometry.py`, `src/cocoutils/convert/converter.py` and
`src/cocoutils/reconstruct/core.py`, with theorems settling the frozen claims
about orientation classification, rasterization with holes, area computation,
annotation-id assignment and mask reconstruction.

Modelling conventions:
- Python float coordinates are modelled as rationals (`ℚ`).
- numpy `uint8` pixel values are modelled as naturals together with explicit
  `% 256` wraparound where the code performs `uint8` arithmetic.
- The pycocotools polygon scan-fill (`mask_utils.frPyObjects`) lives outside
  this repository; it is kept as an explicit function parameter `RasterFn`
  giving per-ring pixel coverage.  `mask_utils.merge` of several run-length
  encodings (without the intersect flag) is their union, and
  `mask_utils.decode` yields the 0/1 `uint8` array, so decode-of-merge is
  modelled as the pointwise union of the per-ring coverages.
- Shapely `Polygon(...).area` for a valid simple polygon is half the absolute
  shoelace sum of its exterior ring; `MultiPolygon(ps).area` is the sum of the
  member areas.  Shapely validity filtering is not modelled: concrete inputs
  used in theorems are valid simple polygons.
-/

/-- A planar point, modelling one `(x, y)` coordinate pair. -/
abbrev Pt := ℚ × ℚ

/-- Models `[(polygon[i], polygon[i+1]) for i in range(0, len(polygon), 2)]`
from `determine_polygon_orientation` (geometry.py line 20): a flat coordinate
list becomes a list of points. -/
def toPoints : List ℚ → List Pt
  | x :: y :: rest => (x, y) :: toPoints rest
  | _ => []

/-- One shoelace term `x_p * y_q - y_p * x_q`. -/
def crossTerm (p q : Pt) : ℚ := p.1 * q.2 - p.2 * q.1

/-- Sum of `crossTerm` over consecutive point pairs (indices `i, i+1` for
`i < n-1`), the non-wrapping part of the shoelace sum of
`determine_polygon_orientation` (geometry.py lines 25-27). -/
def pathSum : List Pt → ℚ
  | a :: b :: rest => crossTerm a b + pathSum (b :: rest)
  | _ => 0

/-- The wrap-around shoelace term `crossTerm last first`, i.e. the `i = n-1`
summand of the cyclic sum in geometry.py lines 25-27 where `(i+1) % n = 0`. -/
def closeTerm (pts : List Pt) : ℚ :=
  match pts.getLast?, pts.head? with
  | some l, some h => crossTerm l h
  | _, _ => 0

/-- The full cyclic shoelace signed-area sum
`sum(points[i][0]*points[(i+1)%n][1] - points[i][1]*points[(i+1)%n][0])`
of geometry.py lines 25-27 (twice the usual signed area). -/
def signedAreaPts (pts : List Pt) : ℚ := pathSum pts + closeTerm pts

/-- Models `[coord for point in points for coord in point]`: flattens a point
list back to a flat coordinate list (geometry.py line 66). -/
def flattenPoints : List Pt → List ℚ
  | [] => []
  | p :: rest => p.1 :: p.2 :: flattenPoints rest

/-- The shoelace term contributed by appending `a` after the last point of
`pts` (`0` when `pts` is empty); used to state how `pathSum` grows. -/
def lastCross (pts : List Pt) (a : Pt) : ℚ :=
  match pts.getLast? with
  | some l => crossTerm l a
  | none => 0

/-- Models `determine_polygon_orientation` (geometry.py lines 9-35): `1`
(POSITIVE) for fewer than 3 points or negative signed area (clockwise in
image coordinates), else `0` (HOLE). -/
def determinePolygonOrientation (polygon : List ℚ) : ℕ :=
  let points := toPoints polygon
  if points.length < 3 then 1
  else if signedAreaPts points < 0 then 1 else 0

/-- Models the single-polygon (flat list) branch of `reverse_orientation`
(geometry.py lines 38-66): lists shorter than 6 coordinates are returned
unchanged, otherwise the coordinate pairs are reversed and flattened back. -/
def reverseOrientation (polygon : List ℚ) : List ℚ :=
  if polygon.length < 6 then polygon
  else flattenPoints (toPoints polygon).reverse

/-- Shapely `Polygon(...).area` of a valid simple polygon given by a flat
ring: half the absolute shoelace sum. -/
def shapelyRingArea (ring : List ℚ) : ℚ := |signedAreaPts (toPoints ring)| / 2

/-- Shapely `MultiPolygon(polygons).area` (converter.py lines 193-194): the
sum of the member polygon areas, regardless of nesting or orientation. -/
def multiPolygonArea (rings : List (List ℚ)) : ℚ := (rings.map shapelyRingArea).sum

/-- The coordinate shift `[(col - 1, row - 1) for row, col in contour]` of
converter.py line 176: a traced contour in (row, col) order, offset by the
1-pixel padding, becomes (x, y) points. -/
def contourToPoints (contour : List Pt) : List Pt :=
  contour.map (fun rc => (rc.2 - 1, rc.1 - 1))

/-- Shapely `Polygon(points).exterior.coords`: the ring closed by repeating
its first point. -/
def closeRing (pts : List Pt) : List Pt :=
  match pts with
  | [] => []
  | p :: _ => pts ++ [p]

/-- The per-contour segmentation storage of `_create_sub_mask_annotation`
(converter.py lines 175-187): shift the contour, take the closed exterior
coordinates of `Polygon(contour)`, flatten them, and keep the result only
when it has at least 6 coordinates (3 points).  No simplification is applied.
Shapely validity filtering is not modelled: contours supplied to theorems
form valid simple polygons. -/
def converterContourSegmentation (contour : List Pt) : Option (List ℚ) :=
  let seg := flattenPoints (closeRing (contourToPoints contour))
  if 6 ≤ seg.length then some seg else none

/-- The `area` field computed by `_create_sub_mask_annotation`
(converter.py lines 193-194): `MultiPolygon(polygons).area` over all valid
contour polygons of the component. -/
def converterComponentArea (contours : List (List Pt)) : ℚ :=
  multiPolygonArea (contours.map (fun c => flattenPoints (closeRing (contourToPoints c))))

/-- The signed area `0.5 * (sum(x[:-1]*y[1:] - x[1:]*y[:-1]) + (x[-1]*y[0] -
x[0]*y[-1]))` computed per segment by `extract_area_from_segments`
(geometry.py lines 288-295): half the cyclic shoelace sum of the segment's
points. -/
def segmentSignedArea (seg : List ℚ) : ℚ := signedAreaPts (toPoints seg) / 2

/-- Models `extract_area_from_segments` (geometry.py lines 268-308): each
segment with at least 6 coordinates contributes its absolute area, positively
for clockwise (negative signed area) segments and negatively for
counter-clockwise ones when `useOrientation` is `true` (the Python default),
always positively otherwise; the total is clamped to be at least 0. -/
def extractAreaFromSegments (segments : List (List ℚ)) (useOrientation : Bool) : ℚ :=
  let total := segments.foldl
    (fun total seg =>
      if 6 ≤ seg.length then
        let sa := segmentSignedArea seg
        if useOrientation then
          total + (if sa < 0 then |sa| else -|sa|)
        else
          total + |sa|
      else total)
    0
  max 0 total

/-- `b` lies exactly on the segment from `a` to `c`: zero perpendicular
deviation and within the bounding box of its neighbours.  Any Douglas-Peucker
style simplification with nonnegative tolerance (in particular shapely
`simplify(1.0, preserve_topology=True)`) removes such a vertex. -/
def redundantTriple (a b c : Pt) : Prop :=
  crossTerm (b.1 - a.1, b.2 - a.2) (c.1 - a.1, c.2 - a.2) = 0 ∧
  min a.1 c.1 ≤ b.1 ∧ b.1 ≤ max a.1 c.1 ∧
  min a.2 c.2 ≤ b.2 ∧ b.2 ≤ max a.2 c.2

/-- Some interior vertex of the point list is redundant in the sense of
`redundantTriple`. -/
def HasRedundantVertex : List Pt → Prop
  | a :: b :: c :: rest => redundantTriple a b c ∨ HasRedundantVertex (b :: c :: rest)
  | _ => False

/-- Pixel-coverage view of the external pycocotools polygon scan-fill:
`raster ring h w r c` states whether pixel (row `r`, column `c`) of an
`h × w` canvas is covered by the single flat ring.  The scan-fill itself is
library code outside this repository, so it is a parameter of the embedding. -/
def RasterFn : Type := List ℚ → ℕ → ℕ → ℕ → ℕ → Bool

/-- A raster mask: the `uint8` value of each (row, column) pixel. -/
def Mask : Type := ℕ → ℕ → ℕ

/-- Models `mask_utils.decode(mask_utils.merge(mask_utils.frPyObjects(segs,
h, w)))` (geometry.py lines 107-109 and 113-115): the 0/1 mask covering the
union of the rings' rasterizations. -/
def decodeMerged (raster : RasterFn) (segs : List (List ℚ)) (h w : ℕ) : Mask :=
  fun r c => if segs.any (fun s => raster s h w r c) then 1 else 0

/-- numpy elementwise subtraction of two `uint8` arrays: wraps modulo 256
(so `0 - 1 = 255`); it is not clamped at zero. -/
def uint8Sub (a b : ℕ) : ℕ := (a + 256 - b % 256) % 256

/-- Models the orientation-inference block of `create_segmentation_mask`
(geometry.py lines 91-96): classify every ring with
`determine_polygon_orientation`; if no ring classifies as positive, force the
first entry to 1. -/
def inferSegmentationTypes (segmentation : List (List ℚ)) : List ℕ :=
  let types := segmentation.map determinePolygonOrientation
  if types.contains 1 = false ∧ 0 < types.length then types.set 0 1 else types

/-- Models `create_segmentation_mask` (geometry.py lines 73-130).  An empty
segmentation gives `none`.  Missing types are inferred.  When the type list
is nonempty and matches the segmentation in length, the rings are partitioned
into positive (`1`) and hole (`0`) groups; with no positive ring the result
is `none`; otherwise the hole union is subtracted from the positive union
with `uint8` wraparound semantics (`pos_mask - hole_mask` on `uint8` arrays,
line 118).  Otherwise the whole segmentation is rasterized as positive.
The returned pixel grid stands for the values of the final `torch.Tensor`. -/
def createSegmentationMask (raster : RasterFn) (segmentation : List (List ℚ))
    (segmentationTypes : Option (List ℕ)) (imgHeight imgWidth : ℕ) : Option Mask :=
  if segmentation.length = 0 then none
  else
    let types :=
      match segmentationTypes with
      | none => inferSegmentationTypes segmentation
      | some t => t
    if types.isEmpty = false ∧ types.length = segmentation.length then
      let posSegs := (segmentation.zip types).filterMap
        (fun p => if p.2 = 1 then some p.1 else none)
      let holeSegs := (segmentation.zip types).filterMap
        (fun p => if p.2 = 0 then some p.1 else none)
      if posSegs.isEmpty = false then
        let posMask := decodeMerged raster posSegs imgHeight imgWidth
        if holeSegs.isEmpty = false then
          let holeMask := decodeMerged raster holeSegs imgHeight imgWidth
          some (fun r c => uint8Sub (posMask r c) (holeMask r c))
        else some posMask
      else none
    else
      some (decodeMerged raster segmentation imgHeight imgWidth)

/-- A concrete scan-fill instantiating `RasterFn` in witnesses: covers the
pixels whose (column, row) center index lies in the half-open bounding box of
the ring's vertices.  On axis-aligned rectangles this agrees with the
pycocotools polygon fill. -/
def rectRaster : RasterFn := fun ring _h _w r c =>
  match toPoints ring with
  | [] => false
  | p :: pts =>
    let x0 := pts.foldl (fun m q => min m q.1) p.1
    let x1 := pts.foldl (fun m q => max m q.1) p.1
    let y0 := pts.foldl (fun m q => min m q.2) p.2
    let y1 := pts.foldl (fun m q => max m q.2) p.2
    decide (x0 ≤ (c : ℚ) ∧ (c : ℚ) < x1 ∧ y0 ≤ (r : ℚ) ∧ (r : ℚ) < y1)

/-- One COCO record as consumed by `_create_mask_from_annotations`
(core.py lines 55-57): only the fields the reconstructor reads are modelled;
a field absent from the JSON object is `none`. -/
structure CocoAnn where
  image_id : ℤ
  category_id : Option ℤ
  segmentation : Option (List (List ℚ))
deriving DecidableEq

/-- The skip guard `if not segmentation or not category_id: continue`
(core.py line 61): `true` when the record paints nothing because its
segmentation is absent or empty, or its category id is absent or 0 (falsy). -/
def skipGuard (ann : CocoAnn) : Bool :=
  match ann.segmentation, ann.category_id with
  | some segs, some cid => segs.isEmpty || cid == 0
  | _, _ => true

/-- The category id a record would paint with (0 when absent). -/
def annCid (ann : CocoAnn) : ℤ := ann.category_id.getD 0

/-- The error numpy raises for a Python integer scalar out of the array
dtype's range. -/
inductive NpError
  | overflow
deriving DecidableEq

/-- numpy `np.where(binary_mask > 0, category_id, mask)` on a `uint8` array
under NEP 50 promotion (NumPy ≥ 2): the Python int scalar is converted to the
array dtype `uint8`; a value outside 0..255 raises `OverflowError`, otherwise
the value is written exactly at every pixel where the condition holds. -/
def npWhereCategory (binaryMask : Mask) (categoryId : ℤ) (mask : Mask) :
    Except NpError Mask :=
  if categoryId < 0 ∨ 255 < categoryId then Except.error NpError.overflow
  else Except.ok (fun r c => if 0 < binaryMask r c then categoryId.toNat else mask r c)

/-- The body of the `for ann in annotations` loop of
`_create_mask_from_annotations` (core.py lines 55-70) for one record:
skip-guarded records leave the mask unchanged; otherwise the rings are
rasterized with inferred types and, when a mask is produced, `category_id`
is written through `np.where`. -/
def reconstructStep (raster : RasterFn) (h w : ℕ) (mask : Mask) (ann : CocoAnn) :
    Except NpError Mask :=
  match ann.segmentation, ann.category_id with
  | some segs, some cid =>
    if segs.isEmpty || cid == 0 then Except.ok mask
    else
      match createSegmentationMask raster segs none h w with
      | some bin => npWhereCategory bin cid mask
      | none => Except.ok mask
  | _, _ => Except.ok mask

/-- The annotation loop of `_create_mask_from_annotations` folded over a
record list, threading the mask; an exception aborts the loop. -/
def reconstructGo (raster : RasterFn) (h w : ℕ) : Mask → List CocoAnn → Except NpError Mask
  | mask, [] => Except.ok mask
  | mask, ann :: rest =>
    (reconstructStep raster h w mask ann).bind (fun m => reconstructGo raster h w m rest)

/-- Models `_create_mask_from_annotations` (core.py lines 50-72): start from
the all-zero `uint8` mask and process, in array order, the records whose
`image_id` matches. -/
def createMaskFromAnns (raster : RasterFn) (anns : List CocoAnn) (imageId : ℤ)
    (h w : ℕ) : Except NpError Mask :=
  reconstructGo raster h w (fun _ _ => 0) (anns.filter (fun a => a.image_id == imageId))

/-- `paintsPixel raster h w ann r c`: the record passes the skip guard, its
rings rasterize to a mask, and that mask is nonzero at pixel (r, c) — i.e.
the loop body writes this record's category id at this pixel. -/
def paintsPixel (raster : RasterFn) (h w : ℕ) (ann : CocoAnn) (r c : ℕ) : Bool :=
  match ann.segmentation, ann.category_id with
  | some segs, some cid =>
    if segs.isEmpty || cid == 0 then false
    else
      match createSegmentationMask raster segs none h w with
      | some bin => decide (0 < bin r c)
      | none => false
  | _, _ => false

/-- The identifier fields of one emitted annotation record of the converter. -/
structure AnnIds where
  image_id : ℕ
  category_id : ℕ
  id : ℕ
deriving DecidableEq

/-- Models the annotation-id assignment loop of `_process_image`
(converter.py lines 145-163).  The geometric work per candidate component is
abstracted into the candidate list: `some c` stands for a component (of
category `c`) for which `_create_sub_mask_annotation` returns an annotation,
`none` for one where it returns `None` or is skipped as tiny.  An annotation
receives the running id, which advances only on emission. -/
def processImageAnns (imageId : ℕ) (candidates : List (Option ℕ)) (annId : ℕ) :
    List AnnIds :=
  match candidates with
  | [] => []
  | none :: rest => processImageAnns imageId rest annId
  | some c :: rest => ⟨imageId, c, annId⟩ :: processImageAnns imageId rest (annId + 1)

/-- Models `_process_single_file` (converter.py lines 51-77): images are
processed in order with `image_id` counting from 1; a per-image failure
(image entry `none`) is skipped, leaving the running annotation id unchanged;
otherwise the image's annotations are appended and the running id advances by
their count. -/
def processSingleFileGo : List (Option (List (Option ℕ))) → ℕ → ℕ → List AnnIds
  | [], _, _ => []
  | none :: rest, imageId, annId => processSingleFileGo rest (imageId + 1) annId
  | some cands :: rest, imageId, annId =>
    let anns := processImageAnns imageId cands annId
    anns ++ processSingleFileGo rest (imageId + 1) (annId + anns.length)

/-- Consolidated (single output) mode: both counters start at 1
(converter.py lines 62-63). -/
def processSingleFile (images : List (Option (List (Option ℕ)))) : List AnnIds :=
  processSingleFileGo images 1 1

/-- Models `_process_per_file` (converter.py lines 78-105): each image is
processed independently with `image_id = 1` and annotation ids restarting at
1; a failed image produces no annotations. -/
def processPerFile (images : List (Option (List (Option ℕ)))) : List (List AnnIds) :=
  images.map (fun img =>
    match img with
    | none => []
    | some cands => processImageAnns 1 cands 1)

/-! ## Helper lemmas: shoelace sums under reversal -/

theorem crossTerm_antisymm (p q : Pt) : crossTerm p q = -crossTerm q p := by
  simp only [crossTerm]
  ring

theorem toPoints_flattenPoints (pts : List Pt) : toPoints (flattenPoints pts) = pts := by
  induction pts with
  | nil => rfl
  | cons p rest ih => simp [flattenPoints, toPoints, ih]

theorem toPoints_length : ∀ l : List ℚ, (toPoints l).length = l.length / 2
  | [] => by simp [toPoints]
  | [_] => by simp [toPoints]
  | x :: y :: rest => by
    simp only [toPoints, List.length_cons, toPoints_length rest]
    omega

theorem lastCross_cons_cons (x y a : Pt) (rest : List Pt) :
    lastCross (x :: y :: rest) a = lastCross (y :: rest) a := by
  simp only [lastCross, List.getLast?_cons_cons]

theorem lastCross_reverse_cons (y a : Pt) (rest : List Pt) :
    lastCross (y :: rest).reverse a = crossTerm y a := by
  simp only [lastCross, List.getLast?_reverse, List.head?_cons]

theorem pathSum_concat (pts : List Pt) (a : Pt) :
    pathSum (pts ++ [a]) = pathSum pts + lastCross pts a := by
  induction pts with
  | nil => simp [pathSum, lastCross]
  | cons x xs ih =>
    cases xs with
    | nil => simp [pathSum, lastCross]
    | cons y rest =>
      show crossTerm x y + pathSum ((y :: rest) ++ [a]) =
        pathSum (x :: y :: rest) + lastCross (x :: y :: rest) a
      rw [ih, lastCross_cons_cons, ← add_assoc]
      rfl

theorem pathSum_reverse (pts : List Pt) : pathSum pts.reverse = -pathSum pts := by
  induction pts with
  | nil => simp [pathSum]
  | cons x xs ih =>
    rw [List.reverse_cons, pathSum_concat, ih]
    cases xs with
    | nil => simp [pathSum, lastCross]
    | cons y rest =>
      rw [lastCross_reverse_cons]
      have h1 : pathSum (x :: y :: rest) = crossTerm x y + pathSum (y :: rest) := rfl
      rw [h1, crossTerm_antisymm y x]
      ring

theorem closeTerm_reverse (pts : List Pt) : closeTerm pts.reverse = -closeTerm pts := by
  cases pts with
  | nil => simp [closeTerm]
  | cons a l =>
    have hlast : (a :: l).getLast? = some ((a :: l).getLast (by simp)) :=
      List.getLast?_eq_getLast _ _
    simp only [closeTerm, List.getLast?_reverse, List.head?_reverse, List.head?_cons, hlast]
    rw [crossTerm_antisymm]

theorem signedAreaPts_reverse (pts : List Pt) :
    signedAreaPts pts.reverse = -signedAreaPts pts := by
  simp only [signedAreaPts, pathSum_reverse, closeTerm_reverse]
  ring

/-! ## Orientation classification -/

theorem determine_spec (polygon : List ℚ) (h3 : 3 ≤ (toPoints polygon).length) :
    (determinePolygonOrientation polygon = 1 ↔ signedAreaPts (toPoints polygon) < 0) ∧
    (determinePolygonOrientation polygon = 0 ↔ 0 ≤ signedAreaPts (toPoints polygon)) := by
  by_cases hsa : signedAreaPts (toPoints polygon) < 0
  · have hval : determinePolygonOrientation polygon = 1 := by
      simp only [determinePolygonOrientation]
      rw [if_neg (by omega), if_pos hsa]
    rw [hval]
    exact ⟨⟨fun _ => hsa, fun _ => rfl⟩,
      ⟨fun h => absurd h one_ne_zero, fun h => absurd hsa (not_lt.mpr h)⟩⟩
  · have hval : determinePolygonOrientation polygon = 0 := by
      simp only [determinePolygonOrientation]
      rw [if_neg (by omega), if_neg hsa]
    rw [hval]
    exact ⟨⟨fun h => absurd h.symm one_ne_zero, fun h => absurd h hsa⟩,
      ⟨fun _ => not_lt.mp hsa, fun _ => rfl⟩⟩

theorem determine_degenerate (polygon : List ℚ) (h3 : (toPoints polygon).length < 3) :
    determinePolygonOrientation polygon = 1 := by
  simp only [determinePolygonOrientation]
  rw [if_pos h3]

/-- C5: for every ring with at least 3 vertices, `determine_polygon_orientation`
returns POSITIVE (1) exactly when the shoelace signed-area sum is negative
(clockwise in image coordinates) and HOLE (0) exactly when it is
nonnegative; every ring with fewer than 3 vertices classifies POSITIVE. -/
theorem C5_classify_by_signed_area (polygon : List ℚ) :
    (3 ≤ (toPoints polygon).length →
      (determinePolygonOrientation polygon = 1 ↔ signedAreaPts (toPoints polygon) < 0) ∧
      (determinePolygonOrientation polygon = 0 ↔ 0 ≤ signedAreaPts (toPoints polygon))) ∧
    ((toPoints polygon).length < 3 → determinePolygonOrientation polygon = 1) :=
  ⟨fun h3 => determine_spec polygon h3, fun hlt => determine_degenerate polygon hlt⟩

/-- Witness for C5 at a clockwise square and at a degenerate 1-point ring. -/
theorem C5_classify_by_signed_area_witness :
    determinePolygonOrientation [0, 0, 0, 1, 1, 1, 1, 0] = 1 ∧
    determinePolygonOrientation [5, 5] = 1 := by
  constructor
  · exact ((C5_classify_by_signed_area [0, 0, 0, 1, 1, 1, 1, 0]).1
      (by norm_num [toPoints])).1.mpr
      (by norm_num [toPoints, signedAreaPts, pathSum, closeTerm, crossTerm])
  · exact (C5_classify_by_signed_area [5, 5]).2 (by norm_num [toPoints])

/-- C6 counterexample: the degenerate collinear ring `[0,0, 1,0, 2,0]` has 3
vertices and zero signed area, so it classifies HOLE (0); its reversal also
has zero signed area and classifies HOLE again, not POSITIVE — refuting the
claim that reversal always inverts the classification of a ≥3-vertex ring. -/
theorem C6_hole_reversal_cex :
    3 ≤ (toPoints [0, 0, 1, 0, 2, 0]).length ∧
    determinePolygonOrientation [0, 0, 1, 0, 2, 0] = 0 ∧
    ¬ determinePolygonOrientation (reverseOrientation [0, 0, 1, 0, 2, 0]) = 1 := by
  refine ⟨by norm_num [toPoints], ?_, ?_⟩
  · norm_num [determinePolygonOrientation, toPoints, signedAreaPts, pathSum, closeTerm,
      crossTerm]
  · norm_num [determinePolygonOrientation, reverseOrientation, flattenPoints, toPoints,
      signedAreaPts, pathSum, closeTerm, crossTerm]

/-- C6 (amended): for every ring with at least 3 vertices and nonzero
shoelace signed area, reversing the vertex order inverts the
classification: POSITIVE becomes HOLE and HOLE becomes POSITIVE.  (Rings
with ≥3 vertices but zero signed area classify HOLE and stay HOLE after
reversal.) -/
theorem C6_reverse_inverts (polygon : List ℚ) (heven : polygon.length % 2 = 0)
    (hlen : 6 ≤ polygon.length) (hsa : signedAreaPts (toPoints polygon) ≠ 0) :
    (determinePolygonOrientation polygon = 1 →
      determinePolygonOrientation (reverseOrientation polygon) = 0) ∧
    (determinePolygonOrientation polygon = 0 →
      determinePolygonOrientation (reverseOrientation polygon) = 1) := by
  have hp3 : 3 ≤ (toPoints polygon).length := by
    rw [toPoints_length]
    omega
  have hpts : toPoints (reverseOrientation polygon) = (toPoints polygon).reverse := by
    rw [reverseOrientation, if_neg (by omega), toPoints_flattenPoints]
  have hp3r : 3 ≤ (toPoints (reverseOrientation polygon)).length := by
    rw [hpts, List.length_reverse]
    exact hp3
  have hsar : signedAreaPts (toPoints (reverseOrientation polygon)) =
      -signedAreaPts (toPoints polygon) := by
    rw [hpts, signedAreaPts_reverse]
  constructor
  · intro h1
    have hneg : signedAreaPts (toPoints polygon) < 0 :=
      (determine_spec polygon hp3).1.mp h1
    exact (determine_spec _ hp3r).2.mpr (by rw [hsar]; linarith)
  · intro h0
    have hpos : 0 ≤ signedAreaPts (toPoints polygon) :=
      (determine_spec polygon hp3).2.mp h0
    have hpos' : 0 < signedAreaPts (toPoints polygon) := lt_of_le_of_ne hpos (Ne.symm hsa)
    exact (determine_spec _ hp3r).1.mpr (by rw [hsar]; linarith)

/-- Witness for C6 at a clockwise unit square (POSITIVE) and its reversal. -/
theorem C6_reverse_inverts_witness :
    determinePolygonOrientation (reverseOrientation [0, 0, 0, 1, 1, 1, 1, 0]) = 0 := by
  refine (C6_reverse_inverts [0, 0, 0, 1, 1, 1, 1, 0] (by norm_num) (by norm_num) ?_).1 ?_
  · norm_num [toPoints, signedAreaPts, pathSum, closeTerm, crossTerm]
  · norm_num [determinePolygonOrientation, toPoints, signedAreaPts, pathSum, closeTerm,
      crossTerm]

/-! ## Converter area and segmentation storage -/

/-- C1 evaluation at the failing component: a component whose traced contours
are an outer clockwise square (area 16) and an inner counter-clockwise hole
square (area 4).  `_create_sub_mask_annotation` stores the two rings and sets
the annotation's `area` field to `MultiPolygon(polygons).area = 20`, the SUM
of the two ring areas, whereas the signed-area sum over rings (POSITIVE adds,
HOLE subtracts, clamped at 0) — computed by the repository's own
`extract_area_from_segments` on exactly the stored rings — is `16 - 4 = 12`. -/
theorem C1_area_adds_hole_areas :
    converterContourSegmentation [(1, 1), (5, 1), (5, 5), (1, 5)] =
      some [0, 0, 0, 4, 4, 4, 4, 0, 0, 0] ∧
    converterContourSegmentation [(2, 2), (2, 4), (4, 4), (4, 2)] =
      some [1, 1, 3, 1, 3, 3, 1, 3, 1, 1] ∧
    converterComponentArea [[(1, 1), (5, 1), (5, 5), (1, 5)],
      [(2, 2), (2, 4), (4, 4), (4, 2)]] = 20 ∧
    extractAreaFromSegments [[0, 0, 0, 4, 4, 4, 4, 0, 0, 0],
      [1, 1, 3, 1, 3, 3, 1, 3, 1, 1]] true = 12 := by
  refine ⟨?_, ?_, ?_, ?_⟩
  · norm_num [converterContourSegmentation, contourToPoints, closeRing, flattenPoints]
  · norm_num [converterContourSegmentation, contourToPoints, closeRing, flattenPoints]
  · norm_num [converterComponentArea, multiPolygonArea, shapelyRingArea, contourToPoints,
      closeRing, flattenPoints, toPoints, signedAreaPts, pathSum, closeTerm, crossTerm]
  · norm_num [extractAreaFromSegments, segmentSignedArea, toPoints, signedAreaPts,
      pathSum, closeTerm, crossTerm]

/-- C4 evaluation at the failing component: a traced contour containing an
exactly collinear intermediate vertex.  `_create_sub_mask_annotation` stores
the closed contour coordinates verbatim — the stored ring still contains the
redundant vertex `(2, 0)` lying on the segment from `(0, 0)` to `(4, 0)`,
which any simplification at tolerance 1.0 (as performed by the repository's
own `extract_polygon_segments` via shapely `simplify(1.0)`) would remove.
So the emitted ring has not passed the simplification step the claim
requires. -/
theorem C4_ring_stored_unsimplified :
    converterContourSegmentation [(1, 1), (1, 3), (1, 5), (5, 5), (5, 1)] =
      some [0, 0, 2, 0, 4, 0, 4, 4, 0, 4, 0, 0] ∧
    HasRedundantVertex (toPoints [0, 0, 2, 0, 4, 0, 4, 4, 0, 4, 0, 0]) := by
  constructor
  · norm_num [converterContourSegmentation, contourToPoints, closeRing, flattenPoints]
  · norm_num [toPoints, HasRedundantVertex, redundantTriple, crossTerm]

/-! ## Rasterization with holes -/

/-- C2 evaluation at the failing input: one POSITIVE square covering columns
and rows 0..3 and one HOLE square covering columns and rows 10..13, with
explicit classifications `[1, 0]`.  The code partitions the rings, unions
each group and subtracts the decoded `uint8` arrays without clamping: at
pixel (12, 12), covered only by the hole ring, `0 - 1` wraps around to 255 —
not 0 and not a 0/1 binary value.  A pixel inside only the positive ring
gives 1 and a pixel outside both rings gives 0. -/
theorem C2_hole_pixel_wraps_to_255 :
    (createSegmentationMask rectRaster
        [[0, 0, 0, 4, 4, 4, 4, 0], [10, 10, 10, 14, 14, 14, 14, 10]]
        (some [1, 0]) 20 20).isSome = true ∧
    ((createSegmentationMask rectRaster
        [[0, 0, 0, 4, 4, 4, 4, 0], [10, 10, 10, 14, 14, 14, 14, 10]]
        (some [1, 0]) 20 20).getD (fun _ _ => 0)) 12 12 = 255 ∧
    ((createSegmentationMask rectRaster
        [[0, 0, 0, 4, 4, 4, 4, 0], [10, 10, 10, 14, 14, 14, 14, 10]]
        (some [1, 0]) 20 20).getD (fun _ _ => 0)) 2 2 = 1 ∧
    ((createSegmentationMask rectRaster
        [[0, 0, 0, 4, 4, 4, 4, 0], [10, 10, 10, 14, 14, 14, 14, 10]]
        (some [1, 0]) 20 20).getD (fun _ _ => 0)) 16 16 = 0 := by
  refine ⟨?_, ?_, ?_, ?_⟩ <;>
    · norm_num [createSegmentationMask, decodeMerged, uint8Sub, rectRaster, toPoints,
        decide_eq_true_eq]
      norm_num [Option.some_ne_none]

/-! ## Type inference and the no-positive-ring case -/

theorem length_inferSegmentationTypes (segs : List (List ℚ)) :
    (inferSegmentationTypes segs).length = segs.length := by
  simp only [inferSegmentationTypes]
  split
  · simp
  · simp

theorem one_mem_inferSegmentationTypes (segs : List (List ℚ)) (hne : segs ≠ []) :
    1 ∈ inferSegmentationTypes segs := by
  simp only [inferSegmentationTypes]
  split
  · rename_i hcond
    cases hmap : segs.map determinePolygonOrientation with
    | nil => exact absurd (List.map_eq_nil_iff.mp hmap) hne
    | cons t ts =>
      rw [List.set_cons_zero]
      exact List.mem_cons_self 1 ts
  · rename_i hcond
    rw [Classical.not_and_iff_or_not_not] at hcond
    rcases hcond with hc | hl
    · have : (segs.map determinePolygonOrientation).contains 1 = true := by
        cases h : (segs.map determinePolygonOrientation).contains 1 with
        | true => rfl
        | false => exact absurd h hc
      exact List.elem_iff.mp this
    · exfalso
      have : segs.length = 0 := by
        have := List.length_map segs determinePolygonOrientation
        omega
      exact hne (List.length_eq_zero.mp this)

theorem filterMap_pos_ne_nil :
    ∀ (segs : List (List ℚ)) (types : List ℕ), types.length = segs.length → 1 ∈ types →
      (segs.zip types).filterMap (fun p => if p.2 = 1 then some p.1 else none) ≠ []
  | [], types, hlen, hmem => by
    have : types = [] := List.length_eq_zero.mp (by simpa using hlen)
    subst this
    simp at hmem
  | s :: ss, [], hlen, hmem => by simp at hmem
  | s :: ss, t :: ts, hlen, hmem => by
    rw [List.zip_cons_cons, List.filterMap_cons]
    by_cases ht : t = 1
    · simp [ht]
    · have hmem' : 1 ∈ ts := by
        cases List.mem_cons.mp hmem with
        | inl h => exact absurd h.symm ht
        | inr h => exact h
      have ih := filterMap_pos_ne_nil ss ts (by simpa using hlen) hmem'
      simp only [ht, if_false]
      exact ih

theorem filterMap_pos_nil :
    ∀ (segs : List (List ℚ)) (types : List ℕ), 1 ∉ types →
      (segs.zip types).filterMap (fun p => if p.2 = 1 then some p.1 else none) = []
  | [], types, _ => by simp
  | s :: ss, [], _ => by simp
  | s :: ss, t :: ts, hmem => by
    rw [List.zip_cons_cons, List.filterMap_cons]
    have ht : ¬ t = 1 := fun h => hmem (h ▸ List.mem_cons_self t ts)
    simp only [ht, if_false]
    exact filterMap_pos_nil ss ts (fun h => hmem (List.mem_cons_of_mem t h))

theorem createSegmentationMask_inferred_isSome (raster : RasterFn)
    (segs : List (List ℚ)) (h w : ℕ) (hne : segs ≠ []) :
    (createSegmentationMask raster segs none h w).isSome = true := by
  have hlen0 : ¬ segs.length = 0 := fun h0 => hne (List.length_eq_zero.mp h0)
  have hlen : (inferSegmentationTypes segs).length = segs.length :=
    length_inferSegmentationTypes segs
  have htsne : inferSegmentationTypes segs ≠ [] := by
    intro h0
    rw [h0] at hlen
    exact hlen0 hlen.symm
  have hpos := filterMap_pos_ne_nil segs (inferSegmentationTypes segs) hlen
    (one_mem_inferSegmentationTypes segs hne)
  simp only [createSegmentationMask, if_neg hlen0]
  rw [if_pos ⟨List.isEmpty_eq_false.mpr htsne, hlen⟩,
    if_pos (List.isEmpty_eq_false.mpr hpos)]
  split
  · simp
  · simp

/-- C7: when no classifications are supplied, `create_segmentation_mask`
infers ring orientations and guarantees at least one POSITIVE entry (forcing
the first ring when necessary), so the result is never "no mask"; when
classifications are supplied externally and classify no ring as POSITIVE,
the result is `none` ("no mask"), which as an `Option` value is distinct
from every actual mask, including the all-zero one. -/
theorem C7_force_positive_or_none (raster : RasterFn) (segs : List (List ℚ))
    (ts : List ℕ) (h w : ℕ) :
    (segs ≠ [] →
      1 ∈ inferSegmentationTypes segs ∧
      createSegmentationMask raster segs none h w ≠ none) ∧
    (ts.length = segs.length → segs ≠ [] → 1 ∉ ts →
      createSegmentationMask raster segs (some ts) h w = none) := by
  constructor
  · intro hne
    refine ⟨one_mem_inferSegmentationTypes segs hne, ?_⟩
    have h1 := createSegmentationMask_inferred_isSome raster segs h w hne
    intro h0
    rw [h0] at h1
    simp at h1
  · intro hlen hne hnot
    have hlen0 : ¬ segs.length = 0 := fun h0 => hne (List.length_eq_zero.mp h0)
    have htsne : ts ≠ [] := by
      intro h0
      subst h0
      simp only [List.length_nil] at hlen
      exact hne (List.length_eq_zero.mp hlen.symm)
    have hpos := filterMap_pos_nil segs ts hnot
    simp only [createSegmentationMask, if_neg hlen0]
    rw [if_pos ⟨List.isEmpty_eq_false.mpr htsne, hlen⟩, hpos]
    simp

/-- Witness for C7: a single counter-clockwise square ring infers as HOLE but
is forced POSITIVE, producing a mask; the same ring with an external
all-HOLE classification yields `none`. -/
theorem C7_force_positive_or_none_witness :
    1 ∈ inferSegmentationTypes [[0, 0, 1, 0, 1, 1, 0, 1]] ∧
    createSegmentationMask rectRaster [[0, 0, 1, 0, 1, 1, 0, 1]] none 5 5 ≠ none ∧
    createSegmentationMask rectRaster [[0, 0, 1, 0, 1, 1, 0, 1]] (some [0]) 5 5 = none := by
  have h := C7_force_positive_or_none rectRaster [[0, 0, 1, 0, 1, 1, 0, 1]] [0] 5 5
  exact ⟨(h.1 (by simp)).1, (h.1 (by simp)).2, h.2 (by simp) (by simp) (by simp)⟩

/-! ## Reconstruction: step lemmas -/

theorem reconstructStep_skip (raster : RasterFn) (h w : ℕ) (mask : Mask)
    (ann : CocoAnn) (hskip : skipGuard ann = true) :
    reconstructStep raster h w mask ann = Except.ok mask := by
  obtain ⟨iid, cid?, seg?⟩ := ann
  cases seg? with
  | none => rfl
  | some segs =>
    cases cid? with
    | none => rfl
    | some cid =>
      simp only [skipGuard] at hskip
      simp only [reconstructStep, hskip, if_true]

theorem paintsPixel_skip (raster : RasterFn) (h w : ℕ) (ann : CocoAnn) (r c : ℕ)
    (hskip : skipGuard ann = true) :
    paintsPixel raster h w ann r c = false := by
  obtain ⟨iid, cid?, seg?⟩ := ann
  cases seg? with
  | none => rfl
  | some segs =>
    cases cid? with
    | none => rfl
    | some cid =>
      simp only [skipGuard] at hskip
      simp only [paintsPixel, hskip, if_true]

theorem reconstructStep_paint (raster : RasterFn) (h w : ℕ) (mask : Mask) (iid : ℤ)
    (segs : List (List ℚ)) (cid : ℤ) (hsne : segs ≠ []) (hc0 : cid ≠ 0)
    (hlo : 0 ≤ cid) (hhi : cid ≤ 255) :
    reconstructStep raster h w mask ⟨iid, some cid, some segs⟩ =
      Except.ok (fun r c =>
        if paintsPixel raster h w ⟨iid, some cid, some segs⟩ r c then cid.toNat
        else mask r c) := by
  have hguard : (segs.isEmpty || cid == 0) = false := by
    simp [List.isEmpty_eq_false.mpr hsne, hc0]
  obtain ⟨bin, hbin⟩ := Option.isSome_iff_exists.mp
    (createSegmentationMask_inferred_isSome raster segs h w hsne)
  simp only [reconstructStep, hguard, Bool.false_eq_true, if_false, hbin]
  rw [npWhereCategory, if_neg (by omega)]
  congr 1
  funext r c
  have hpp : paintsPixel raster h w ⟨iid, some cid, some segs⟩ r c =
      decide (0 < bin r c) := by
    simp only [paintsPixel, hguard, Bool.false_eq_true, if_false, hbin]
  rw [hpp]
  by_cases hb : 0 < bin r c
  · simp [hb]
  · simp [hb]

theorem reconstructStep_overflow (raster : RasterFn) (h w : ℕ) (mask : Mask) (iid : ℤ)
    (segs : List (List ℚ)) (cid : ℤ) (hsne : segs ≠ []) (hc0 : cid ≠ 0)
    (hout : cid < 0 ∨ 255 < cid) :
    reconstructStep raster h w mask ⟨iid, some cid, some segs⟩ =
      Except.error NpError.overflow := by
  have hguard : (segs.isEmpty || cid == 0) = false := by
    simp [List.isEmpty_eq_false.mpr hsne, hc0]
  obtain ⟨bin, hbin⟩ := Option.isSome_iff_exists.mp
    (createSegmentationMask_inferred_isSome raster segs h w hsne)
  simp only [reconstructStep, hguard, Bool.false_eq_true, if_false, hbin]
  rw [npWhereCategory, if_pos hout]

/-! ## Reconstruction: last-write-wins characterization -/

theorem reconstructGo_spec (raster : RasterFn) (h w : ℕ) :
    ∀ (l : List CocoAnn) (mask : Mask),
      (∀ ann ∈ l, skipGuard ann = false → 0 ≤ annCid ann ∧ annCid ann ≤ 255) →
      reconstructGo raster h w mask l =
        Except.ok (fun r c =>
          match l.reverse.find? (fun a => paintsPixel raster h w a r c) with
          | some a => (annCid a).toNat
          | none => mask r c)
  | [], mask, _ => by
    simp [reconstructGo]
  | a :: l, mask, hr => by
    have hrl : ∀ ann ∈ l, skipGuard ann = false → 0 ≤ annCid ann ∧ annCid ann ≤ 255 :=
      fun ann hm => hr ann (List.mem_cons_of_mem a hm)
    cases hg : skipGuard a with
    | true =>
      have hstep := reconstructStep_skip raster h w mask a hg
      simp only [reconstructGo, hstep, Except.bind]
      rw [reconstructGo_spec raster h w l mask hrl]
      congr 1
      funext r c
      rw [List.reverse_cons, List.find?_append]
      have hpf : List.find? (fun x => paintsPixel raster h w x r c) [a] = none := by
        simp [List.find?, paintsPixel_skip raster h w a r c hg]
      rw [hpf, Option.or_none]
    | false =>
      obtain ⟨iid, cid?, seg?⟩ := a
      cases seg? with
      | none => simp [skipGuard] at hg
      | some segs =>
        cases cid? with
        | none => simp [skipGuard] at hg
        | some cid =>
          have hguard : (segs.isEmpty || cid == 0) = false := by
            simpa [skipGuard] using hg
          have hsne : segs ≠ [] := by
            rcases Bool.or_eq_false_iff.mp hguard with ⟨h1, _⟩
            exact List.isEmpty_eq_false.mp h1
          have hc0 : cid ≠ 0 := by
            rcases Bool.or_eq_false_iff.mp hguard with ⟨_, h2⟩
            simpa using h2
          have hin := hr ⟨iid, some cid, some segs⟩ (List.mem_cons_self _ _) hg
          have hlo : 0 ≤ cid := by simpa [annCid] using hin.1
          have hhi : cid ≤ 255 := by simpa [annCid] using hin.2
          have hstep := reconstructStep_paint raster h w mask iid segs cid hsne hc0 hlo hhi
          simp only [reconstructGo, hstep, Except.bind]
          rw [reconstructGo_spec raster h w l _ hrl]
          congr 1
          funext r c
          rw [List.reverse_cons, List.find?_append]
          cases hf : List.find? (fun x => paintsPixel raster h w x r c) l.reverse with
          | some b => rfl
          | none =>
            simp only [Option.or]
            cases hp : paintsPixel raster h w ⟨iid, some cid, some segs⟩ r c with
            | true => simp [List.find?, hp, annCid]
            | false => simp [List.find?, hp]

/-- C3: `_create_mask_from_annotations` starts from the all-zero mask and
processes the records whose `image_id` matches in array order; provided
every non-skipped record's category id is in the `uint8` range, the result
at each pixel is the category id of the LAST record (in array order) whose
rasterized binary mask is nonzero there — later records overwrite earlier
ones — and pixels painted by no record keep the initial value 0. -/
theorem C3_last_write_wins (raster : RasterFn) (anns : List CocoAnn) (imageId : ℤ)
    (h w : ℕ)
    (hrange : ∀ ann ∈ anns.filter (fun a => a.image_id == imageId),
      skipGuard ann = false → 0 ≤ annCid ann ∧ annCid ann ≤ 255) :
    createMaskFromAnns raster anns imageId h w =
      Except.ok (fun r c =>
        match (anns.filter (fun a => a.image_id == imageId)).reverse.find?
            (fun a => paintsPixel raster h w a r c) with
        | some a => (annCid a).toNat
        | none => 0) :=
  reconstructGo_spec raster h w (anns.filter (fun a => a.image_id == imageId))
    (fun _ _ => 0) hrange

/-- Witness for C3: two overlapping square annotations on image 1 with
category ids 1 and 2. -/
theorem C3_last_write_wins_witness :
    createMaskFromAnns rectRaster
      [⟨1, some 1, some [[0, 0, 0, 4, 4, 4, 4, 0]]⟩,
       ⟨1, some 2, some [[2, 2, 2, 6, 6, 6, 6, 2]]⟩] 1 8 8 =
      Except.ok (fun r c =>
        match (([⟨1, some 1, some [[0, 0, 0, 4, 4, 4, 4, 0]]⟩,
            ⟨1, some 2, some [[2, 2, 2, 6, 6, 6, 6, 2]]⟩] :
            List CocoAnn).filter (fun a => a.image_id == 1)).reverse.find?
            (fun a => paintsPixel rectRaster 8 8 a r c) with
        | some a => (annCid a).toNat
        | none => 0) :=
  C3_last_write_wins rectRaster
    [⟨1, some 1, some [[0, 0, 0, 4, 4, 4, 4, 0]]⟩,
     ⟨1, some 2, some [[2, 2, 2, 6, 6, 6, 6, 2]]⟩] 1 8 8
    (by
      intro ann hmem hskip
      have hm := List.mem_of_mem_filter hmem
      simp only [List.mem_cons, List.not_mem_nil, or_false] at hm
      rcases hm with h1 | h1 <;> subst h1 <;> exact ⟨by decide, by decide⟩)

/-- C9 counterexample: a single annotation for image 1 with `category_id =
300` and a nonempty square segmentation.  Reconstruction does NOT silently
store `300 % 256 = 44`: numpy's NEP-50 scalar conversion of 300 to the
`uint8` array dtype raises `OverflowError`, so the whole reconstruction of
the image aborts with an error and no truncated mask is produced. -/
theorem C9_truncation_cex :
    createMaskFromAnns rectRaster [⟨1, some 300, some [[0, 0, 0, 4, 4, 4, 4, 0]]⟩]
      1 8 8 = Except.error NpError.overflow := by
  have hstep := reconstructStep_overflow rectRaster 8 8 (fun _ _ => 0) 1
    [[0, 0, 0, 4, 4, 4, 4, 0]] 300 (by simp) (by omega) (by omega)
  have hfilter : (([⟨1, some 300, some [[0, 0, 0, 4, 4, 4, 4, 0]]⟩] :
      List CocoAnn).filter (fun a => a.image_id == 1)) =
      [⟨1, some 300, some [[0, 0, 0, 4, 4, 4, 4, 0]]⟩] := by
    simp [List.filter]
  rw [createMaskFromAnns, hfilter]
  simp only [reconstructGo, hstep, Except.bind]

/-- C9 (amended): the reconstruction mask is 8-bit; for a non-skipped
annotation whose category id lies in 0..255 the exact id is written at every
painted pixel (no alteration), while a category id outside 0..255 — in
particular any id ≥ 256 such as the 16-bit ids accepted on the extraction
side — makes numpy raise an overflow error instead of silently truncating
modulo 256. -/
theorem C9_exact_write_or_overflow (raster : RasterFn) (h w : ℕ) (mask : Mask)
    (iid : ℤ) (segs : List (List ℚ)) (cid : ℤ) (hsne : segs ≠ []) (hc0 : cid ≠ 0) :
    (0 ≤ cid ∧ cid ≤ 255 →
      reconstructStep raster h w mask ⟨iid, some cid, some segs⟩ =
        Except.ok (fun r c =>
          if paintsPixel raster h w ⟨iid, some cid, some segs⟩ r c then cid.toNat
          else mask r c)) ∧
    (cid < 0 ∨ 255 < cid →
      reconstructStep raster h w mask ⟨iid, some cid, some segs⟩ =
        Except.error NpError.overflow) :=
  ⟨fun hin => reconstructStep_paint raster h w mask iid segs cid hsne hc0 hin.1 hin.2,
   fun hout => reconstructStep_overflow raster h w mask iid segs cid hsne hc0 hout⟩

/-- Witness for C9 (amended) at category id 7 (in range) and 300 (overflow). -/
theorem C9_exact_write_or_overflow_witness :
    reconstructStep rectRaster 8 8 (fun _ _ => 0) ⟨1, some 7, some [[0, 0, 0, 4, 4, 4, 4, 0]]⟩ =
      Except.ok (fun r c =>
        if paintsPixel rectRaster 8 8 ⟨1, some 7, some [[0, 0, 0, 4, 4, 4, 4, 0]]⟩ r c
        then (7 : ℤ).toNat else 0) ∧
    reconstructStep rectRaster 8 8 (fun _ _ => 0) ⟨1, some 300, some [[0, 0, 0, 4, 4, 4, 4, 0]]⟩ =
      Except.error NpError.overflow :=
  ⟨(C9_exact_write_or_overflow rectRaster 8 8 (fun _ _ => 0) 1
      [[0, 0, 0, 4, 4, 4, 4, 0]] 7 (by simp) (by omega)).1 (by omega),
   (C9_exact_write_or_overflow rectRaster 8 8 (fun _ _ => 0) 1
      [[0, 0, 0, 4, 4, 4, 4, 0]] 300 (by simp) (by omega)).2 (by omega)⟩

/-- C10: every annotation whose segmentation is absent or empty, or whose
category id is absent or 0, is silently skipped by the reconstruction loop:
it paints no pixel, raises no error, and leaves the mask unchanged. -/
theorem C10_skip_degenerate (raster : RasterFn) (h w : ℕ) (mask : Mask)
    (ann : CocoAnn)
    (hdeg : ann.segmentation = none ∨ ann.segmentation = some [] ∨
      ann.category_id = none ∨ ann.category_id = some 0) :
    reconstructStep raster h w mask ann = Except.ok mask := by
  apply reconstructStep_skip
  obtain ⟨iid, cid?, seg?⟩ := ann
  simp only at hdeg
  rcases hdeg with h1 | h1 | h1 | h1 <;> subst h1
  · rfl
  · cases cid? with
    | none => rfl
    | some cid => simp [skipGuard]
  · cases seg? with
    | none => rfl
    | some segs => simp [skipGuard]
  · cases seg? with
    | none => rfl
    | some segs => simp [skipGuard]

/-- Witness for C10 at all four degenerate shapes. -/
theorem C10_skip_degenerate_witness :
    reconstructStep rectRaster 5 5 (fun _ _ => 0) ⟨1, some 3, none⟩ =
      Except.ok (fun _ _ => 0) ∧
    reconstructStep rectRaster 5 5 (fun _ _ => 0) ⟨1, some 3, some []⟩ =
      Except.ok (fun _ _ => 0) ∧
    reconstructStep rectRaster 5 5 (fun _ _ => 0) ⟨1, none, some [[0, 0, 0, 2, 2, 2, 2, 0]]⟩ =
      Except.ok (fun _ _ => 0) ∧
    reconstructStep rectRaster 5 5 (fun _ _ => 0) ⟨1, some 0, some [[0, 0, 0, 2, 2, 2, 2, 0]]⟩ =
      Except.ok (fun _ _ => 0) :=
  ⟨C10_skip_degenerate rectRaster 5 5 (fun _ _ => 0) ⟨1, some 3, none⟩ (Or.inl rfl),
   C10_skip_degenerate rectRaster 5 5 (fun _ _ => 0) ⟨1, some 3, some []⟩
     (Or.inr (Or.inl rfl)),
   C10_skip_degenerate rectRaster 5 5 (fun _ _ => 0) ⟨1, none, some [[0, 0, 0, 2, 2, 2, 2, 0]]⟩
     (Or.inr (Or.inr (Or.inl rfl))),
   C10_skip_degenerate rectRaster 5 5 (fun _ _ => 0) ⟨1, some 0, some [[0, 0, 0, 2, 2, 2, 2, 0]]⟩
     (Or.inr (Or.inr (Or.inr rfl)))⟩

/-! ## Annotation id assignment -/

theorem processImageAnns_map_id : ∀ (iid : ℕ) (cands : List (Option ℕ)) (aid : ℕ),
    (processImageAnns iid cands aid).map AnnIds.id =
      List.range' aid (processImageAnns iid cands aid).length
  | _, [], _ => rfl
  | iid, none :: rest, aid => by
    simpa only [processImageAnns] using processImageAnns_map_id iid rest aid
  | iid, some c :: rest, aid => by
    simp only [processImageAnns, List.map_cons, List.length_cons]
    rw [processImageAnns_map_id iid rest (aid + 1), List.range'_succ]

theorem processSingleFileGo_map_id :
    ∀ (imgs : List (Option (List (Option ℕ)))) (iid aid : ℕ),
      (processSingleFileGo imgs iid aid).map AnnIds.id =
        List.range' aid (processSingleFileGo imgs iid aid).length
  | [], _, _ => rfl
  | none :: rest, iid, aid => by
    simpa only [processSingleFileGo] using processSingleFileGo_map_id rest (iid + 1) aid
  | some cands :: rest, iid, aid => by
    simp only [processSingleFileGo, List.map_append, List.length_append]
    rw [processImageAnns_map_id iid cands aid,
      processSingleFileGo_map_id rest (iid + 1)
        (aid + (processImageAnns iid cands aid).length)]
    have h := List.range'_append aid (processImageAnns iid cands aid).length
      (processSingleFileGo rest (iid + 1)
        (aid + (processImageAnns iid cands aid).length)).length 1
    simp only [Nat.one_mul] at h
    rw [h, Nat.add_comm]

/-- C8: in consolidated (single-output) mode the annotation ids over the whole
run are exactly `1, 2, 3, …` in emission order — strictly increasing from 1
with no gaps anywhere, hence none within any image's annotations; in
per-file mode ids restart for every image, so any image with at least one
annotation has first annotation id 1. -/
theorem C8_id_assignment (images : List (Option (List (Option ℕ)))) :
    (processSingleFile images).map AnnIds.id =
      List.range' 1 (processSingleFile images).length ∧
    (∀ l ∈ processPerFile images, ∀ a : AnnIds, l.head? = some a → a.id = 1) := by
  constructor
  · rw [processSingleFile, processSingleFileGo_map_id]
  · intro l hl a ha
    obtain ⟨img, _, heq⟩ := List.mem_map.mp hl
    cases img with
    | none =>
      simp only at heq
      rw [← heq] at ha
      simp at ha
    | some cands =>
      simp only at heq
      have hmap : l.map AnnIds.id = List.range' 1 l.length := by
        rw [← heq]
        exact processImageAnns_map_id 1 cands 1
      have hha : (l.map AnnIds.id).head? = some a.id := by
        rw [List.head?_map, ha]
        rfl
      rw [hmap] at hha
      have hlen : l.length ≠ 0 := by
        intro h0
        rw [List.length_eq_zero.mp h0] at ha
        simp at ha
      obtain ⟨n, hn⟩ : ∃ n, l.length = n + 1 := ⟨l.length - 1, by omega⟩
      rw [hn, List.range'_succ, List.head?_cons] at hha
      exact (Option.some.inj hha).symm

/-- Witness for C8 on three images (the second one failing): consolidated ids
are `[1, 2, 3]` and the per-file first annotation of image 1 has id 1. -/
theorem C8_id_assignment_witness :
    (processSingleFile [some [some 5, none, some 7], none, some [none, some 5]]).map
        AnnIds.id =
      List.range' 1
        (processSingleFile [some [some 5, none, some 7], none, some [none, some 5]]).length ∧
    (⟨1, 5, 1⟩ : AnnIds).id = 1 :=
  ⟨(C8_id_assignment [some [some 5, none, some 7], none, some [none, some 5]]).1,
   (C8_id_assignment [some [some 5, none, some 7], none, some [none, some 5]]).2
     (processImageAnns 1 [some 5, none, some 7] 1) (by decide) ⟨1, 5, 1⟩ (by decide)⟩
